import Mathlib

/-!
Verification development for the chaos-draft companion app.

The definitions below are a shallow embedding of the repository's core:
the session engine (`src/state/sessionStore.ts`), the draft page's
selection helpers (`src/pages/Draft.tsx`), the Firebase-backed inventory
repository (`src/state/inventoryStore.ts`, whose current version defines
`Pack` with the `inPerson`/`inTransit` split and the operations `addPack`
and `confirmSessionPicks`), and the draft history store
(`src/state/draftHistoryStore.ts`). JavaScript numbers used as counts are
modelled as `Int`; the two `Math.random()` draws of the weighted pick are
explicit rational parameters. Firestore collections are modelled as
association lists from document id to document data; a Firestore
transaction is a function from the collection to `Except`, where
`Except.error` means the transaction threw and the backend discarded all
its staged writes.
-/

namespace ChaosDraft

/-- Pack record of the current inventory store (`inventoryStore.ts`):
`id` is the Firestore document id, `inPerson`/`inTransit` the two
quantity fields, `ownerId` the owning user. -/
structure Pack where
  id : String
  name : String
  imageUrl : String
  inPerson : Int
  inTransit : Int
  ownerId : String
deriving DecidableEq, Repr

/-- Player record of the session store. -/
structure Player where
  id : String
  name : String
  selectedPacks : List Pack
deriving DecidableEq, Repr

/-- The Zustand session state (`sessionStore.ts`), minus the action
closures: the actions are modelled below as functions on this state. -/
structure Session where
  sessionId : String
  players : List Player
  numPacks : Int
  packsSelectedOrder : List Pack
  tempInventory : List Pack
  confirmed : Bool
deriving DecidableEq, Repr

/-- Embedding of `initializeSession` (`sessionStore.ts`). The
`playerNames[i] || backup` and `numPacks || numPlayers * 3` JavaScript
defaults are falsy checks, so an empty name string and a zero numPacks
also fall back to the defaults. The fresh `crypto.randomUUID()` is an
explicit parameter, and the inventory snapshot (a spread copy of each
pack) is the `inventory` parameter. -/
def initializeSession (inventory : List Pack) (numPlayers : Nat)
    (playerNames : List String) (numPacks : Option Int) (newSessionId : String) : Session :=
  { sessionId := newSessionId
    players := (List.range numPlayers).map (fun i =>
      { id := "player-" ++ toString (i + 1)
        name :=
          match playerNames.get? i with
          | some nm => if nm = "" then "Player " ++ toString (i + 1) else nm
          | none => "Player " ++ toString (i + 1)
        selectedPacks := [] })
    numPacks :=
      match numPacks with
      | some v => if v = 0 then (numPlayers : Int) * 3 else v
      | none => (numPlayers : Int) * 3
    packsSelectedOrder := []
    tempInventory := inventory
    confirmed := false }

/-- Embedding of `selectPackForNextPlayer` (`sessionStore.ts`). The
source mutates `updatedPlayers[playerIndex].selectedPacks` in place; with
value semantics that is replacing the element at `playerIndex`. When
`players` is empty the JavaScript code throws on the `undefined` element
access, so the `none` branch is unreachable in any run that returns; the
theorems below therefore carry a `0 < players.length` hypothesis. The
`tempInventory` update decrements `inPerson` of entries whose id matches
and then keeps only entries with `inPerson > 0 || inTransit > 0`. -/
def selectPackForNextPlayer (s : Session) (pack : Pack) : Session :=
  let nextIndex := s.packsSelectedOrder.length
  let playerIndex := nextIndex % s.players.length
  let updatedPlayers :=
    match s.players.get? playerIndex with
    | some pl => s.players.set playerIndex
        { pl with selectedPacks := pl.selectedPacks ++ [pack] }
    | none => s.players
  let tempInventory :=
    (s.tempInventory.map (fun p =>
        if p.id = pack.id then { p with inPerson := p.inPerson - 1 } else p)).filter
      (fun p => decide (0 < p.inPerson ∨ 0 < p.inTransit))
  { s with
    players := updatedPlayers
    packsSelectedOrder := s.packsSelectedOrder ++ [pack]
    tempInventory := tempInventory }

/-- Embedding of `undoLastPick` (`sessionStore.ts`). `getLast? = none`
is exactly the source's `packsSelectedOrder.length === 0` early return.
The player at `(length - 1) % players.length` loses its last selected
pack; if the undone pack still has an entry in `tempInventory` (the
source's `find` truthiness test) its `inPerson` is incremented, otherwise
the pack is re-appended with `inPerson = 1`. `confirmed` is always reset
to `false`. -/
def undoLastPick (s : Session) : Session :=
  match s.packsSelectedOrder.getLast? with
  | none => s
  | some lastPackSelected =>
    let newPacksSelectedOrder := s.packsSelectedOrder.dropLast
    let playerIndex := (s.packsSelectedOrder.length - 1) % s.players.length
    let updatedPlayers :=
      match s.players.get? playerIndex with
      | some pl => s.players.set playerIndex
          { pl with selectedPacks := pl.selectedPacks.dropLast }
      | none => s.players
    let newTempInventory :=
      match s.tempInventory.find? (fun p => decide (p.id = lastPackSelected.id)) with
      | some _ => s.tempInventory.map (fun p =>
          if p.id = lastPackSelected.id then { p with inPerson := p.inPerson + 1 } else p)
      | none => s.tempInventory ++ [{ lastPackSelected with inPerson := 1 }]
    { s with
      players := updatedPlayers
      packsSelectedOrder := newPacksSelectedOrder
      tempInventory := newTempInventory
      confirmed := false }

/-- Embedding of the `availablePacks` memo of `Draft.tsx`: the working
inventory filtered to packs whose id does not occur among the packs
already selected this session. -/
def availablePacks (tempInventory packsSelectedOrder : List Pack) : List Pack :=
  tempInventory.filter (fun p => ! packsSelectedOrder.any (fun q => decide (q.id = p.id)))

/-- The `reduce((sum, p) => sum + p.quantity, 0)` total of
`pickWeightedRandomPack` in `Draft.tsx`. The source reads the weight from
`p.quantity`; that field name comes from the legacy pack schema (the
current `Pack` of `inventoryStore.ts` stores the count as `inPerson`), so
the weight access is kept abstract as a parameter `w`. -/
def totalWeight (w : Pack → ℚ) (packs : List Pack) : ℚ :=
  packs.foldl (fun sum p => sum + w p) 0

/-- The `for (const pack of packs)` loop of `pickWeightedRandomPack`:
return the first pack with `rand < weight`, else subtract the weight and
continue; fall through to the given fallback (`packs[packs.length - 1]`
in the source). -/
def pickLoop (w : Pack → ℚ) : List Pack → ℚ → Option Pack → Option Pack
  | [], _, fallback => fallback
  | p :: rest, rand, fallback =>
    if rand < w p then some p else pickLoop w rest (rand - w p) fallback

/-- Embedding of `pickWeightedRandomPack` (`Draft.tsx`). `u1` models the
`Math.random()` draw of the weighted branch and `u2` the one of the
`totalWeight <= 0` branch, both in `[0, 1)`; `w` is the `p.quantity`
weight access (see `totalWeight`). Note the `totalWeight <= 0` branch
returns a uniformly indexed pack of the pool, not `none`. -/
def pickWeightedRandomPack (w : Pack → ℚ) (confirmed : Bool) (packs : List Pack)
    (u1 u2 : ℚ) : Option Pack :=
  if confirmed then none
  else if packs.length = 0 then none
  else
    let total := totalWeight w packs
    if total ≤ 0 then
      packs.get? (Int.toNat ⌊u2 * (packs.length : ℚ)⌋)
    else
      pickLoop w packs (u1 * total) (packs.get? (packs.length - 1))

/-- Pack document as stored in the Firestore `packs` collection: the
`Pack` fields minus the document id. -/
structure PackDoc where
  name : String
  imageUrl : String
  inPerson : Int
  inTransit : Int
  ownerId : String
deriving DecidableEq, Repr

/-- A Firestore collection: association list from document id to data.
Document ids are unique in Firestore; theorems that need this carry a
`Nodup` hypothesis on the key list. -/
abbrev Collection (α : Type) := List (String × α)

/-- The `packs` collection. -/
abbrev PacksCol := Collection PackDoc

/-- Document lookup by id (`transaction.get` / `getDoc`): `none` models
`!doc.exists()`. -/
def getDoc {α : Type} (col : Collection α) (key : String) : Option α :=
  (col.find? (fun e => decide (e.1 = key))).map Prod.snd

/-- Overwrite the `inPerson` field of the document with the given id
(the effect of `transaction.update(docRef, { inPerson: v })` on an
existing document). -/
def setInPerson (col : PacksCol) (pid : String) (v : Int) : PacksCol :=
  col.map (fun e => if e.1 = pid then (e.1, { e.2 with inPerson := v }) else e)

/-- `transaction.update(docRef, { inPerson: v })`: Firestore's `update`
fails when the target document does not exist, aborting the enclosing
transaction. -/
def updateInPerson (col : PacksCol) (pid : String) (v : Int) : Except String PacksCol :=
  match getDoc col pid with
  | some _ => .ok (setInPerson col pid v)
  | none => .error ("No document to update: " ++ pid)

/-- The write phase shared by `confirmSessionPicks` and `deleteDraft`:
issue the staged `inPerson` updates in order; any failing update aborts
the transaction. -/
def applyWrites (col : PacksCol) : List (String × Int) → Except String PacksCol
  | [] => .ok col
  | (pid, v) :: rest =>
    match updateInPerson col pid v with
    | .ok col2 => applyWrites col2 rest
    | .error e => .error e

/-- One step of building the `packCounts` map:
`packCounts.set(id, (packCounts.get(id) || 0) + 1)`. A JavaScript `Map`
updates an existing key in place and appends a new key at the end. -/
def incrCount (m : List (String × Nat)) (k : String) : List (String × Nat) :=
  if m.any (fun e => decide (e.1 = k)) then
    m.map (fun e => if e.1 = k then (e.1, e.2 + 1) else e)
  else m ++ [(k, 1)]

/-- The `packCounts` aggregation loop of `confirmSessionPicks`. -/
def buildPackCounts (selectedPacks : List Pack) : List (String × Nat) :=
  selectedPacks.foldl (fun m p => incrCount m p.id) []

/-- The read phase of the `confirmSessionPicks` transaction: for each
`(packId, numPicked)` read the pack document, throw if it is missing or
owned by someone else, and stage `max(0, inPerson - numPicked)` as the
new quantity. All reads complete before any write is issued. -/
def stageConfirmReads (userId : String) (packCounts : List (String × Nat))
    (col : PacksCol) : Except String (List (String × Int)) :=
  match packCounts with
  | [] => .ok []
  | (packId, numPicked) :: rest =>
    match getDoc col packId with
    | none => .error ("Pack " ++ packId ++ " not found or permission denied.")
    | some d =>
      if d.ownerId = userId then
        match stageConfirmReads userId rest col with
        | .ok tail => .ok ((packId, max 0 (d.inPerson - (numPicked : Int))) :: tail)
        | .error e => .error e
      else .error ("Pack " ++ packId ++ " not found or permission denied.")

/-- The body of the `runTransaction` call inside `confirmSessionPicks`:
reads first, then writes. An `Except.error` outcome is a thrown
transaction, which Firestore aborts without applying any staged write. -/
def confirmTransaction (userId : String) (packCounts : List (String × Nat))
    (col : PacksCol) : Except String PacksCol :=
  match stageConfirmReads userId packCounts col with
  | .ok docsToUpdate => applyWrites col docsToUpdate
  | .error e => .error e

/-- Embedding of `confirmSessionPicks` (`inventoryStore.ts`). The whole
transaction is wrapped in `try/catch` whose catch block only logs, so the
returned promise resolves normally in every case; callers cannot observe
the failure. The caller-visible effect is the resulting collection. -/
def confirmSessionPicks (userId : Option String) (selectedPacks : List Pack)
    (col : PacksCol) : PacksCol :=
  match userId with
  | none => col
  | some uid =>
    match confirmTransaction uid (buildPackCounts selectedPacks) col with
    | .ok col2 => col2
    | .error _ => col

/-- Embedding of `confirmSession` (`sessionStore.ts`). On an empty
`packsSelectedOrder` it logs and returns. Otherwise it awaits
`confirmSessionPicks` and sets `confirmed := true`; its own
`catch` branch (which would skip the `set`) is unreachable because
`confirmSessionPicks` catches every error internally and resolves. -/
def confirmSession (s : Session) (userId : Option String) (col : PacksCol) :
    Session × PacksCol :=
  if s.packsSelectedOrder.length = 0 then (s, col)
  else
    let col2 := confirmSessionPicks userId s.packsSelectedOrder col
    ({ s with confirmed := true }, col2)

/-- Argument of `addPack`: `Omit<Pack, "id" | "ownerId">`. -/
structure NewPack where
  name : String
  imageUrl : String
  inPerson : Int
  inTransit : Int
deriving DecidableEq, Repr

/-- Embedding of `addPack` (`inventoryStore.ts`). It first queries for a
pack with the same owner and the same name; if one exists it updates that
document in place, adding the new `inPerson`/`inTransit` to the existing
counts and replacing `imageUrl` (the upsert branch); only otherwise does
it `addDoc` a new document, whose fresh id is the `newId` parameter. The
query result order is the list order, so `querySnapshot.docs[0]` is the
first matching entry. -/
def addPack (userId : Option String) (pack : NewPack) (col : PacksCol)
    (newId : String) : PacksCol :=
  match userId with
  | none => col
  | some uid =>
    match col.find? (fun e => decide (e.2.ownerId = uid ∧ e.2.name = pack.name)) with
    | some existing =>
      col.map (fun e =>
        if e.1 = existing.1 then
          (e.1, { e.2 with
            inPerson := e.2.inPerson + pack.inPerson
            inTransit := e.2.inTransit + pack.inTransit
            imageUrl := pack.imageUrl })
        else e)
    | none =>
      col ++ [(newId,
        { name := pack.name
          imageUrl := pack.imageUrl
          inPerson := pack.inPerson
          inTransit := pack.inTransit
          ownerId := uid })]

/-- Drafted pack reference stored in a history entry. -/
structure DraftedPack where
  id : String
  name : String
  imageUrl : String
deriving DecidableEq, Repr

/-- Per-player pack list of a history entry. -/
structure DraftPlayer where
  id : String
  name : String
  packs : List DraftedPack
deriving DecidableEq, Repr

/-- Draft history document (`drafts` collection); `completedAt` is an
opaque timestamp. -/
structure DraftDoc where
  sessionId : String
  userId : String
  completedAt : Int
  players : List DraftPlayer
  restockComplete : Bool
deriving DecidableEq, Repr

/-- The `drafts` collection. -/
abbrev DraftsCol := Collection DraftDoc

/-- The pack-count aggregation of `deleteDraft`: flatten
`players[].packs` into per-id counts. -/
def buildDraftPackCounts (players : List DraftPlayer) : List (String × Nat) :=
  players.foldl (fun m pl => pl.packs.foldl (fun m2 pk => incrCount m2 pk.id) m) []

/-- The read phase of the `deleteDraft` transaction over the packs
collection: for each `(packId, count)`, stage `inPerson + count` if the
pack exists and is owned by the caller, else stage the bare `count`
(the source's `let newInPerson = count` default, kept for missing or
foreign documents). This phase never throws. -/
def stageRevertReads (userUid : String) (packCounts : List (String × Nat))
    (col : PacksCol) : List (String × Int) :=
  packCounts.map (fun e =>
    match getDoc col e.1 with
    | some d => if d.ownerId = userUid then (e.1, d.inPerson + (e.2 : Int)) else (e.1, (e.2 : Int))
    | none => (e.1, (e.2 : Int)))

/-- The body of the `runTransaction` call inside `deleteDraft`
(`draftHistoryStore.ts`): read and validate the draft document, read all
referenced packs, then write every staged `inPerson` via
`transaction.update` (which fails on a missing document, as the source's
own comment records) and delete the draft document. An error outcome
aborts everything. -/
def deleteDraftTransaction (userUid : String) (draftId : String)
    (packCounts : List (String × Nat)) (drafts : DraftsCol) (packs : PacksCol) :
    Except String (DraftsCol × PacksCol) :=
  match getDoc drafts draftId with
  | none => .error "Draft not found or permission denied."
  | some dd =>
    if dd.userId = userUid then
      match applyWrites packs (stageRevertReads userUid packCounts packs) with
      | .ok packs2 => .ok (drafts.filter (fun e => decide (e.1 ≠ draftId)), packs2)
      | .error e => .error e
    else .error "Draft not found or permission denied."

/-- Embedding of `deleteDraft` (`draftHistoryStore.ts`): aggregate the
pick counts, run the transaction, and on a caught error leave both
collections unchanged (the catch block only logs). -/
def deleteDraft (userUid : Option String) (draftId : String)
    (players : List DraftPlayer) (drafts : DraftsCol) (packs : PacksCol) :
    DraftsCol × PacksCol :=
  match userUid with
  | none => (drafts, packs)
  | some uid =>
    match deleteDraftTransaction uid draftId (buildDraftPackCounts players) drafts packs with
    | .ok res => res
    | .error _ => (drafts, packs)

/-- Session states reachable by the engine: an initialized session (the
session-setup page enforces at least one player) followed by any sequence
of picks and undos. -/
inductive Reach : Session → Prop where
  | init (inventory : List Pack) (numPlayers : Nat) (playerNames : List String)
      (numPacks : Option Int) (sid : String) (h : 0 < numPlayers) :
      Reach (initializeSession inventory numPlayers playerNames numPacks sid)
  | pick (s : Session) (pack : Pack) (h : Reach s) : Reach (selectPackForNextPlayer s pack)
  | undo (s : Session) (h : Reach s) : Reach (undoLastPick s)

/-- Auxiliary for `pickedAt`: elements of the list whose position
(starting at `i`) is congruent to `j` modulo `n`. -/
def pickedAtAux (n j : Nat) : Nat → List Pack → List Pack
  | _, [] => []
  | i, p :: rest => (if i % n = j then [p] else []) ++ pickedAtAux n j (i + 1) rest

/-- The subsequence of `l` at positions congruent to `j` modulo `n`: the
round-robin share of player `j` among `n` players, recomputed from
positions alone. -/
def pickedAt (l : List Pack) (n j : Nat) : List Pack :=
  pickedAtAux n j 0 l

/-! Helper lemmas about collections. -/

theorem getDoc_nil {α : Type} (q : String) : getDoc ([] : Collection α) q = none := rfl

theorem getDoc_cons {α : Type} (k : String) (d : α) (t : Collection α) (q : String) :
    getDoc ((k, d) :: t) q = if k = q then some d else getDoc t q := by
  by_cases h : k = q
  · simp [getDoc, List.find?_cons_of_pos, h]
  · simp only [getDoc, h, if_false]
    rw [List.find?_cons_of_neg]
    simp [h]

theorem getDoc_eq_some_of_mem {α : Type} (col : Collection α) (k : String) (d : α)
    (hnd : (col.map Prod.fst).Nodup) (hmem : (k, d) ∈ col) : getDoc col k = some d := by
  induction col with
  | nil => cases hmem
  | cons e t ih =>
    obtain ⟨k0, d0⟩ := e
    have hnd2 : (∀ x, (k0, x) ∉ t) ∧ (t.map Prod.fst).Nodup := by simpa using hnd
    rw [getDoc_cons]
    rcases List.mem_cons.mp hmem with heq | ht
    · rw [Prod.mk.injEq] at heq
      obtain ⟨rfl, rfl⟩ := heq
      simp
    · have hk : k0 ≠ k := by
        intro hkk
        exact hnd2.1 d (hkk ▸ ht)
      rw [if_neg hk]
      exact ih hnd2.2 ht

theorem getDoc_setInPerson (col : PacksCol) (pid q : String) (v : Int) :
    getDoc (setInPerson col pid v) q =
      if q = pid then (getDoc col pid).map (fun d => { d with inPerson := v })
      else getDoc col q := by
  induction col with
  | nil => by_cases h : q = pid <;> simp [getDoc, setInPerson, h]
  | cons e t ih =>
    obtain ⟨k, d⟩ := e
    by_cases hkp : k = pid
    · subst hkp
      have hset : setInPerson ((k, d) :: t) k v =
          (k, { d with inPerson := v }) :: setInPerson t k v := by
        simp [setInPerson]
      rw [hset]
      simp only [getDoc_cons, ih]
      by_cases hkq : k = q
      · subst hkq; simp
      · have hqk : ¬ q = k := fun h => hkq h.symm
        simp [hkq, hqk]
    · have hset : setInPerson ((k, d) :: t) pid v = (k, d) :: setInPerson t pid v := by
        simp [setInPerson, hkp]
      rw [hset]
      simp only [getDoc_cons, ih]
      by_cases hkq : k = q
      · subst hkq
        simp [hkp]
      · by_cases hqp : q = pid <;> simp [hkq, hqp, hkp]

theorem applyWrites_ok (staged : List (String × Int)) (col : PacksCol)
    (hpres : ∀ e ∈ staged, (getDoc col e.1).isSome = true)
    (hnd : (staged.map Prod.fst).Nodup) :
    ∃ col2, applyWrites col staged = .ok col2 ∧
      (∀ pid v, (pid, v) ∈ staged → ∀ d, getDoc col pid = some d →
        getDoc col2 pid = some { d with inPerson := v }) ∧
      (∀ q, q ∉ staged.map Prod.fst → getDoc col2 q = getDoc col q) := by
  induction staged generalizing col with
  | nil => exact ⟨col, rfl, by simp, fun q _ => rfl⟩
  | cons e rest ih =>
    obtain ⟨pid, v⟩ := e
    have hp : (getDoc col pid).isSome = true := hpres (pid, v) (by simp)
    obtain ⟨d0, hd0⟩ := Option.isSome_iff_exists.mp hp
    have hpres2 : ∀ e ∈ rest, (getDoc (setInPerson col pid v) e.1).isSome = true := by
      intro e he
      rw [getDoc_setInPerson]
      by_cases h : e.1 = pid
      · simp [h, hd0]
      · simp only [h, if_false]
        exact hpres e (List.mem_cons.mpr (Or.inr he))
    have hnd2 : (rest.map Prod.fst).Nodup := (List.nodup_cons.mp (by simpa using hnd)).2
    have hnotin : pid ∉ rest.map Prod.fst := (List.nodup_cons.mp (by simpa using hnd)).1
    obtain ⟨col2, hcol2, hupd, hframe⟩ := ih (setInPerson col pid v) hpres2 hnd2
    refine ⟨col2, ?_, ?_, ?_⟩
    · simp [applyWrites, updateInPerson, hd0, hcol2]
    · intro pid2 v2 hmem d hd
      rcases List.mem_cons.mp hmem with heq | ht
      · rw [Prod.mk.injEq] at heq
        obtain ⟨h1, h2⟩ := heq
        rw [h1, h2]
        rw [h1] at hd
        have hd0d : d0 = d := Option.some.inj (hd0.symm.trans hd)
        subst hd0d
        rw [hframe pid hnotin, getDoc_setInPerson]
        simp [hd0]
      · have hne : pid2 ≠ pid := by
          intro hpp
          exact hnotin (List.mem_map.mpr ⟨(pid2, v2), ht, hpp⟩)
        refine hupd pid2 v2 ht d ?_
        rw [getDoc_setInPerson]
        simp [hne, hd]
    · intro q hq
      have hq1 : q ∉ rest.map Prod.fst := by
        intro hmem2
        exact hq (by simp only [List.map_cons, List.mem_cons]; exact Or.inr hmem2)
      have hq2 : q ≠ pid := by
        intro hqp
        exact hq (by simp [hqp])
      rw [hframe q hq1, getDoc_setInPerson]
      simp [hq2]

theorem applyWrites_error_of_missing (staged : List (String × Int)) (col : PacksCol)
    (h : ∃ e ∈ staged, getDoc col e.1 = none) :
    ∃ err, applyWrites col staged = .error err := by
  induction staged generalizing col with
  | nil => obtain ⟨e, he, _⟩ := h; cases he
  | cons e rest ih =>
    obtain ⟨pid, v⟩ := e
    cases hd : getDoc col pid with
    | none => exact ⟨"No document to update: " ++ pid, by simp [applyWrites, updateInPerson, hd]⟩
    | some d0 =>
      obtain ⟨e0, he0, hmiss⟩ := h
      have he0r : e0 ∈ rest := by
        rcases List.mem_cons.mp he0 with heq | ht
        · exfalso
          have h1 : e0.1 = pid := by rw [heq]
          rw [h1] at hmiss; rw [hmiss] at hd; cases hd
        · exact ht
      have hne : e0.1 ≠ pid := by
        intro hp; rw [hp] at hmiss; rw [hmiss] at hd; cases hd
      have hmiss2 : getDoc (setInPerson col pid v) e0.1 = none := by
        rw [getDoc_setInPerson]; simp [hne, hmiss]
      obtain ⟨err, herr⟩ := ih (setInPerson col pid v) ⟨e0, he0r, hmiss2⟩
      exact ⟨err, by simp [applyWrites, updateInPerson, hd, herr]⟩

theorem applyWrites_nonneg (staged : List (String × Int)) :
    ∀ col col2, (∀ e ∈ staged, 0 ≤ e.2) → applyWrites col staged = .ok col2 →
      (∀ pid d, getDoc col pid = some d → 0 ≤ d.inPerson) →
      ∀ pid d, getDoc col2 pid = some d → 0 ≤ d.inPerson := by
  induction staged with
  | nil =>
    intro col col2 _ hok hcol
    cases hok
    exact hcol
  | cons e rest ih =>
    intro col col2 hv hok hcol
    obtain ⟨pid, v⟩ := e
    cases hd : getDoc col pid with
    | none => simp [applyWrites, updateInPerson, hd] at hok
    | some d0 =>
      have hok2 : applyWrites (setInPerson col pid v) rest = .ok col2 := by
        simpa [applyWrites, updateInPerson, hd] using hok
      refine ih (setInPerson col pid v) col2 (fun e he => hv e (List.mem_cons.mpr (Or.inr he)))
        hok2 ?_
      intro q d hq
      rw [getDoc_setInPerson] at hq
      by_cases hqp : q = pid
      · rw [hqp] at hq
        simp only [if_pos rfl, hd, Option.map_some] at hq
        have : 0 ≤ v := hv (pid, v) (by simp)
        cases hq
        simpa using this
      · rw [if_neg hqp] at hq
        exact hcol q d hq

theorem stageConfirm_ok_of_valid (uid : String) (counts : List (String × Nat)) (col : PacksCol)
    (h : ∀ pc ∈ counts, ∃ d, getDoc col pc.1 = some d ∧ d.ownerId = uid) :
    stageConfirmReads uid counts col = .ok (counts.map (fun pc =>
      (pc.1, match getDoc col pc.1 with
             | some d => max 0 (d.inPerson - (pc.2 : Int))
             | none => 0))) := by
  induction counts with
  | nil => rfl
  | cons pc rest ih =>
    obtain ⟨pid, c⟩ := pc
    obtain ⟨d, hd, hod⟩ := h (pid, c) (by simp)
    have ihr := ih (fun pc hpc => h pc (List.mem_cons.mpr (Or.inr hpc)))
    simp [stageConfirmReads, hd, hod, ihr]

theorem stageConfirm_error_of_invalid (uid : String) (counts : List (String × Nat))
    (col : PacksCol)
    (h : ∃ pc ∈ counts, ∀ d, getDoc col pc.1 = some d → d.ownerId ≠ uid) :
    ∃ e, stageConfirmReads uid counts col = .error e := by
  induction counts with
  | nil => obtain ⟨pc, hpc, _⟩ := h; cases hpc
  | cons pc0 rest ih =>
    obtain ⟨pid, c⟩ := pc0
    cases hd : getDoc col pid with
    | none =>
      exact ⟨"Pack " ++ pid ++ " not found or permission denied.",
        by simp [stageConfirmReads, hd]⟩
    | some d =>
      by_cases hod : d.ownerId = uid
      · obtain ⟨pc, hpc, hbad⟩ := h
        have hpcr : pc ∈ rest := by
          rcases List.mem_cons.mp hpc with heq | ht
          · exfalso
            have h1 : pc.1 = pid := by rw [heq]
            exact hbad d (h1 ▸ hd) hod
          · exact ht
        obtain ⟨e, he⟩ := ih ⟨pc, hpcr, hbad⟩
        exact ⟨e, by simp [stageConfirmReads, hd, hod, he]⟩
      · exact ⟨"Pack " ++ pid ++ " not found or permission denied.",
          by simp [stageConfirmReads, hd, hod]⟩

theorem stageConfirm_ok_valid (uid : String) (counts : List (String × Nat)) (col : PacksCol)
    (staged : List (String × Int)) (h : stageConfirmReads uid counts col = .ok staged) :
    ∀ pc ∈ counts, ∃ d, getDoc col pc.1 = some d ∧ d.ownerId = uid := by
  induction counts generalizing staged with
  | nil => intro pc hpc; cases hpc
  | cons pc0 rest ih =>
    obtain ⟨pid, c⟩ := pc0
    intro pc hpc
    cases hd : getDoc col pid with
    | none => simp [stageConfirmReads, hd] at h
    | some d =>
      by_cases hod : d.ownerId = uid
      · rcases List.mem_cons.mp hpc with heq | ht
        · exact ⟨d, by rw [heq]; exact hd, hod⟩
        · cases htail : stageConfirmReads uid rest col with
          | ok tail => exact ih tail htail pc ht
          | error e => simp [stageConfirmReads, hd, hod, htail] at h
      · simp [stageConfirmReads, hd, hod] at h

theorem getDoc_map_if {α : Type} (col : Collection α) (pid q : String) (f : α → α) :
    getDoc (col.map (fun e => if e.1 = pid then (e.1, f e.2) else e)) q =
      if q = pid then (getDoc col pid).map f else getDoc col q := by
  induction col with
  | nil => by_cases h : q = pid <;> simp [getDoc, h]
  | cons e t ih =>
    obtain ⟨k, d⟩ := e
    by_cases hkp : k = pid
    · subst hkp
      rw [show ((k, d) :: t).map (fun e => if e.1 = k then (e.1, f e.2) else e) =
          (k, f d) :: t.map (fun e => if e.1 = k then (e.1, f e.2) else e) by simp]
      simp only [getDoc_cons, ih]
      by_cases hkq : k = q
      · subst hkq; simp
      · have hqk : ¬ q = k := fun h => hkq h.symm
        simp [hkq, hqk]
    · rw [show ((k, d) :: t).map (fun e => if e.1 = pid then (e.1, f e.2) else e) =
          (k, d) :: t.map (fun e => if e.1 = pid then (e.1, f e.2) else e) by simp [hkp]]
      simp only [getDoc_cons, ih]
      by_cases hkq : k = q
      · subst hkq
        simp [hkp]
      · by_cases hqp : q = pid <;> simp [hkq, hqp, hkp]

theorem getDoc_filter_ne {α : Type} (col : Collection α) (did : String) :
    getDoc (col.filter (fun e => decide (e.1 ≠ did))) did = none := by
  induction col with
  | nil => rfl
  | cons e t ih =>
    obtain ⟨k, d⟩ := e
    have ih2 : getDoc (t.filter (fun e => ! decide (e.1 = did))) did = none := by
      simpa using ih
    by_cases hk : k = did
    · simp [List.filter_cons, hk, ih2]
    · simp [List.filter_cons, hk, getDoc_cons, ih2]

theorem stageRevert_keys (uid : String) (counts : List (String × Nat)) (col : PacksCol) :
    (stageRevertReads uid counts col).map Prod.fst = counts.map Prod.fst := by
  induction counts with
  | nil => rfl
  | cons pc rest ih =>
    obtain ⟨pid, c⟩ := pc
    cases hd : getDoc col pid with
    | none => simpa [stageRevertReads, hd] using ih
    | some d =>
      by_cases hod : d.ownerId = uid <;> simpa [stageRevertReads, hd, hod] using ih

theorem stageRevert_mem (uid : String) (counts : List (String × Nat)) (col : PacksCol)
    (pid : String) (c : Nat) (d : PackDoc) (hmem : (pid, c) ∈ counts)
    (hd : getDoc col pid = some d) (hod : d.ownerId = uid) :
    (pid, d.inPerson + (c : Int)) ∈ stageRevertReads uid counts col := by
  refine List.mem_map.mpr ⟨(pid, c), hmem, ?_⟩
  simp [hd, hod]

theorem stageConfirm_ok_eq (uid : String) (counts : List (String × Nat)) (col : PacksCol)
    (staged : List (String × Int)) (h : stageConfirmReads uid counts col = .ok staged) :
    staged = counts.map (fun pc =>
      (pc.1, match getDoc col pc.1 with
             | some d => max 0 (d.inPerson - (pc.2 : Int))
             | none => 0)) := by
  have hvalid := stageConfirm_ok_valid uid counts col staged h
  have h2 := stageConfirm_ok_of_valid uid counts col hvalid
  rw [h] at h2
  exact Except.ok.inj h2

/-! Claim theorems. -/

/-- Claim C2: `confirmPicks` is all-or-nothing. If any referenced pack is
missing or not owned by the caller, the transaction throws (and the
backend then discards every staged write, leaving all pack documents
unchanged); if every referenced pack is present and owned, the
transaction commits, every referenced pack's `inPerson` becomes
`max 0 (inPerson - count)`, every unreferenced document is untouched, and
no `inPerson` value in the resulting collection is negative if none was
before. The reads are all staged before the first write by construction
of `confirmTransaction`. -/
theorem confirmPicks_all_or_nothing (uid : String) (counts : List (String × Nat))
    (col : PacksCol) (hnd : (counts.map Prod.fst).Nodup) :
    ((∃ pc ∈ counts, ∀ d, getDoc col pc.1 = some d → d.ownerId ≠ uid) →
      ∃ e, confirmTransaction uid counts col = .error e) ∧
    ((∀ pc ∈ counts, ∃ d, getDoc col pc.1 = some d ∧ d.ownerId = uid) →
      ∃ col2, confirmTransaction uid counts col = .ok col2) ∧
    (∀ col2, confirmTransaction uid counts col = .ok col2 →
      (∀ pid c, (pid, c) ∈ counts → ∀ d, getDoc col pid = some d →
        getDoc col2 pid = some { d with inPerson := max 0 (d.inPerson - (c : Int)) }) ∧
      (∀ q, q ∉ counts.map Prod.fst → getDoc col2 q = getDoc col q) ∧
      ((∀ pid d, getDoc col pid = some d → 0 ≤ d.inPerson) →
        ∀ pid d, getDoc col2 pid = some d → 0 ≤ d.inPerson)) := by
  have hkeys : ∀ staged, stageConfirmReads uid counts col = .ok staged →
      staged.map Prod.fst = counts.map Prod.fst := by
    intro staged hst
    rw [stageConfirm_ok_eq uid counts col staged hst, List.map_map]
    rfl
  refine ⟨?_, ?_, ?_⟩
  · intro hbad
    obtain ⟨e, he⟩ := stageConfirm_error_of_invalid uid counts col hbad
    exact ⟨e, by simp [confirmTransaction, he]⟩
  · intro hvalid
    have hst := stageConfirm_ok_of_valid uid counts col hvalid
    set staged := counts.map (fun pc =>
      (pc.1, match getDoc col pc.1 with
             | some d => max 0 (d.inPerson - (pc.2 : Int))
             | none => 0)) with hstaged
    have hpres : ∀ e ∈ staged, (getDoc col e.1).isSome = true := by
      intro e he
      obtain ⟨pc, hpc, hfe⟩ := List.mem_map.mp he
      obtain ⟨d, hd, _⟩ := hvalid pc hpc
      have h1 : e.1 = pc.1 := by rw [← hfe]
      rw [h1, hd]
      rfl
    have hnds : (staged.map Prod.fst).Nodup := by
      rw [hkeys staged hst]
      exact hnd
    obtain ⟨col2, hcol2, _, _⟩ := applyWrites_ok staged col hpres hnds
    exact ⟨col2, by simp [confirmTransaction, hst, hcol2]⟩
  · intro col2 hok
    cases hst : stageConfirmReads uid counts col with
    | error e => simp [confirmTransaction, hst] at hok
    | ok staged =>
      have hok2 : applyWrites col staged = .ok col2 := by
        simpa [confirmTransaction, hst] using hok
      have hvalid := stageConfirm_ok_valid uid counts col staged hst
      have heq := stageConfirm_ok_eq uid counts col staged hst
      have hpres : ∀ e ∈ staged, (getDoc col e.1).isSome = true := by
        intro e he
        rw [heq] at he
        obtain ⟨pc, hpc, hfe⟩ := List.mem_map.mp he
        obtain ⟨d, hd, _⟩ := hvalid pc hpc
        have h1 : e.1 = pc.1 := by rw [← hfe]
        rw [h1, hd]
        rfl
      have hnds : (staged.map Prod.fst).Nodup := by
        rw [hkeys staged hst]
        exact hnd
      obtain ⟨col3, hcol3, hupd, hframe⟩ := applyWrites_ok staged col hpres hnds
      have hcol23 : col3 = col2 := by
        rw [hcol3] at hok2
        exact Except.ok.inj hok2
      subst hcol23
      refine ⟨?_, ?_, ?_⟩
      · intro pid c hmem d hd
        have hsmem : (pid, max 0 (d.inPerson - (c : Int))) ∈ staged := by
          rw [heq]
          refine List.mem_map.mpr ⟨(pid, c), hmem, ?_⟩
          simp [hd]
        exact hupd pid (max 0 (d.inPerson - (c : Int))) hsmem d hd
      · intro q hq
        refine hframe q ?_
        rw [hkeys staged hst]
        exact hq
      · intro hcolpos
        refine applyWrites_nonneg staged col col3 ?_ hok2 hcolpos
        intro e he
        rw [heq] at he
        obtain ⟨pc, hpc, hfe⟩ := List.mem_map.mp he
        have h2 : e.2 = (match getDoc col pc.1 with
             | some d => max 0 (d.inPerson - (pc.2 : Int))
             | none => 0) := by rw [← hfe]
        rw [h2]
        cases getDoc col pc.1 with
        | none => simp
        | some d => simp

/-- Witness for C2 at a concrete two-pack collection: picks of 2 from a
pack holding 5 and 7 from a pack holding 1 commit, clamping the second
at 0. -/
theorem confirmPicks_all_or_nothing_witness :
    ∃ col2, confirmTransaction "u" [("a", 2), ("b", 7)]
      [("a", ⟨"A", "", 5, 0, "u"⟩), ("b", ⟨"B", "", 1, 2, "u"⟩)] = .ok col2 :=
  (confirmPicks_all_or_nothing "u" [("a", 2), ("b", 7)]
      [("a", ⟨"A", "", 5, 0, "u"⟩), ("b", ⟨"B", "", 1, 2, "u"⟩)] (by decide)).2.1
    (by
      intro pc hpc
      rcases List.mem_cons.mp hpc with heq | hpc2
      · exact ⟨⟨"A", "", 5, 0, "u"⟩, by rw [heq]; rfl, rfl⟩
      · rcases List.mem_cons.mp hpc2 with heq2 | hpc3
        · exact ⟨⟨"B", "", 1, 2, "u"⟩, by rw [heq2]; rfl, rfl⟩
        · cases hpc3)

/-- Claim C1 (code bug): with a non-empty `packsSelectedOrder` whose only
pick references pack id `"a"`, against a backend holding no pack
documents, the `confirmSessionPicks` transaction throws (pack not found),
yet `confirmSession` still sets `confirmed = true` while the durable
collection is unchanged — because `confirmSessionPicks` catches the
failure internally and resolves normally, making the failure branch of
`confirmSession` unreachable. The claim (and the spec) say a failed
transaction must leave `confirmed = false`. -/
theorem confirmSession_confirms_despite_failure :
    confirmTransaction "u"
        (buildPackCounts [⟨"a", "A", "", 1, 0, "u"⟩]) [] =
      .error "Pack a not found or permission denied." ∧
    (confirmSession ⟨"sid", [⟨"player-1", "P1", [⟨"a", "A", "", 1, 0, "u"⟩]⟩], 3,
        [⟨"a", "A", "", 1, 0, "u"⟩], [], false⟩ (some "u") []).1.confirmed = true ∧
    (confirmSession ⟨"sid", [⟨"player-1", "P1", [⟨"a", "A", "", 1, 0, "u"⟩]⟩], 3,
        [⟨"a", "A", "", 1, 0, "u"⟩], [], false⟩ (some "u") []).2 = [] := by
  refine ⟨?_, rfl, rfl⟩
  rfl

/-- Claim C5 counterexample: deleting a draft whose three picks all
reference the since-deleted pack `"X"` (empty packs collection) does not
recreate `"X"` with `inPerson = 3` as the claim states. Instead the
transaction's `update` on the missing document throws, the whole
operation is rolled back, the draft entry survives, and pack `"X"` still
does not exist afterwards. -/
theorem deleteDraft_missing_pack_counterexample :
    deleteDraftTransaction "u" "d1" [("X", 3)]
      [("d1", ⟨"sess", "u", 0, [⟨"pl1", "P1", [⟨"X", "Xn", ""⟩, ⟨"X", "Xn", ""⟩, ⟨"X", "Xn", ""⟩]⟩], false⟩)]
      [] = .error "No document to update: X" ∧
    deleteDraft (some "u") "d1" [⟨"pl1", "P1", [⟨"X", "Xn", ""⟩, ⟨"X", "Xn", ""⟩, ⟨"X", "Xn", ""⟩]⟩]
      [("d1", ⟨"sess", "u", 0, [⟨"pl1", "P1", [⟨"X", "Xn", ""⟩, ⟨"X", "Xn", ""⟩, ⟨"X", "Xn", ""⟩]⟩], false⟩)]
      [] =
      ([("d1", ⟨"sess", "u", 0, [⟨"pl1", "P1", [⟨"X", "Xn", ""⟩, ⟨"X", "Xn", ""⟩, ⟨"X", "Xn", ""⟩]⟩], false⟩)],
        []) ∧
    getDoc ((deleteDraft (some "u") "d1"
      [⟨"pl1", "P1", [⟨"X", "Xn", ""⟩, ⟨"X", "Xn", ""⟩, ⟨"X", "Xn", ""⟩]⟩]
      [("d1", ⟨"sess", "u", 0, [⟨"pl1", "P1", [⟨"X", "Xn", ""⟩, ⟨"X", "Xn", ""⟩, ⟨"X", "Xn", ""⟩]⟩], false⟩)]
      []).2) "X" = none := by
  refine ⟨rfl, rfl, rfl⟩

/-- Claim C5 amended: the inventory revert of `deleteDraft` increments
`inPerson` by the reverted count for every referenced pack that still
exists and is owned by the caller, but for a count referencing a
since-deleted pack the entire transaction fails (Firestore `update`
throws on a missing document) and nothing is changed; no pack record is
ever recreated. -/
theorem deleteDraft_revert (uid draftId : String) (counts : List (String × Nat))
    (drafts : DraftsCol) (packs : PacksCol) (dd : DraftDoc)
    (hdd : getDoc drafts draftId = some dd) (hown : dd.userId = uid)
    (hnd : (counts.map Prod.fst).Nodup) :
    ((∃ pc ∈ counts, getDoc packs pc.1 = none) →
      ∃ e, deleteDraftTransaction uid draftId counts drafts packs = .error e) ∧
    ((∀ pc ∈ counts, (getDoc packs pc.1).isSome = true) →
      ∃ drafts2 packs2,
        deleteDraftTransaction uid draftId counts drafts packs = .ok (drafts2, packs2) ∧
        getDoc drafts2 draftId = none ∧
        (∀ pid c, (pid, c) ∈ counts → ∀ d, getDoc packs pid = some d → d.ownerId = uid →
          getDoc packs2 pid = some { d with inPerson := d.inPerson + (c : Int) }) ∧
        (∀ q, q ∉ counts.map Prod.fst → getDoc packs2 q = getDoc packs q)) := by
  constructor
  · intro hmiss
    obtain ⟨pc, hpc, hnone⟩ := hmiss
    have hsm : ∃ e ∈ stageRevertReads uid counts packs, getDoc packs e.1 = none := by
      refine ⟨(pc.1, (pc.2 : Int)), List.mem_map.mpr ⟨pc, hpc, ?_⟩, hnone⟩
      simp [hnone]
    obtain ⟨err, herr⟩ := applyWrites_error_of_missing (stageRevertReads uid counts packs)
      packs hsm
    exact ⟨err, by simp [deleteDraftTransaction, hdd, hown, herr]⟩
  · intro hpres
    have hpres2 : ∀ e ∈ stageRevertReads uid counts packs, (getDoc packs e.1).isSome = true := by
      intro e he
      obtain ⟨pc, hpc, hfe⟩ := List.mem_map.mp he
      have h1 : e.1 = pc.1 := by
        rw [← hfe]
        cases hd : getDoc packs pc.1 with
        | none => rfl
        | some d => by_cases hod : d.ownerId = uid <;> simp [hd, hod]
      rw [h1]
      exact hpres pc hpc
    have hnds : ((stageRevertReads uid counts packs).map Prod.fst).Nodup := by
      rw [stageRevert_keys]
      exact hnd
    obtain ⟨packs2, hpacks2, hupd, hframe⟩ :=
      applyWrites_ok (stageRevertReads uid counts packs) packs hpres2 hnds
    refine ⟨drafts.filter (fun e => decide (e.1 ≠ draftId)), packs2, ?_, ?_, ?_, ?_⟩
    · simp [deleteDraftTransaction, hdd, hown, hpacks2]
    · exact getDoc_filter_ne drafts draftId
    · intro pid c hmem d hd hod
      exact hupd pid (d.inPerson + (c : Int))
        (stageRevert_mem uid counts packs pid c d hmem hd hod) d hd
    · intro q hq
      refine hframe q ?_
      rw [stageRevert_keys]
      exact hq

/-- Witness for C5 (amended) at a concrete store: reverting `{a: 2}`
against a collection where pack `"a"` exists with `inPerson = 1` and is
owned by the caller yields `inPerson = 3` and deletes the draft entry. -/
theorem deleteDraft_revert_witness :
    ∃ drafts2 packs2,
      deleteDraftTransaction "u" "d1" [("a", 2)]
        [("d1", ⟨"sess", "u", 0, [], false⟩)] [("a", ⟨"A", "", 1, 0, "u"⟩)] =
        .ok (drafts2, packs2) ∧
      getDoc drafts2 "d1" = none ∧
      (∀ pid c, (pid, c) ∈ [("a", (2 : Nat))] → ∀ d,
        getDoc [("a", (⟨"A", "", 1, 0, "u"⟩ : PackDoc))] pid = some d → d.ownerId = "u" →
        getDoc packs2 pid = some { d with inPerson := d.inPerson + (c : Int) }) ∧
      (∀ q, q ∉ [("a", (2 : Nat))].map Prod.fst →
        getDoc packs2 q = getDoc [("a", (⟨"A", "", 1, 0, "u"⟩ : PackDoc))] q) :=
  (deleteDraft_revert "u" "d1" [("a", 2)] [("d1", ⟨"sess", "u", 0, [], false⟩)]
      [("a", ⟨"A", "", 1, 0, "u"⟩)] ⟨"sess", "u", 0, [], false⟩ rfl rfl (by decide)).2
    (by intro pc hpc; rcases List.mem_cons.mp hpc with heq | hpc2
        · rw [heq]; rfl
        · cases hpc2)

/-- Claim C9 counterexample: adding pack data named `"X"` for a user who
already owns a pack named `"X"` does not create a new record. The
existing document is updated in place (quantities added, image replaced)
and the would-be fresh document id `"p9"` is never created, contradicting
the claim that `add` always creates a new record and never merges. -/
theorem addPack_counterexample :
    addPack (some "u") ⟨"X", "new", 3, 0⟩ [("p1", ⟨"X", "old", 2, 1, "u"⟩)] "p9" =
      [("p1", ⟨"X", "new", 5, 1, "u"⟩)] ∧
    getDoc (addPack (some "u") ⟨"X", "new", 3, 0⟩ [("p1", ⟨"X", "old", 2, 1, "u"⟩)] "p9")
      "p9" = none := by
  refine ⟨rfl, rfl⟩

/-- Claim C9 amended: `addPack` first queries the caller's packs for one
with the same name; if such a pack exists it merges into that record
(summing `inPerson` and `inTransit` and replacing `imageUrl`) and creates
nothing; only when no same-name pack exists does it create a new
record. -/
theorem addPack_upsert (uid : String) (np : NewPack) (col : PacksCol) (newId : String)
    (hnd : (col.map Prod.fst).Nodup) :
    (col.find? (fun e => decide (e.2.ownerId = uid ∧ e.2.name = np.name)) = none →
      addPack (some uid) np col newId =
        col ++ [(newId, ⟨np.name, np.imageUrl, np.inPerson, np.inTransit, uid⟩)]) ∧
    (∀ k d, col.find? (fun e => decide (e.2.ownerId = uid ∧ e.2.name = np.name)) = some (k, d) →
      (addPack (some uid) np col newId).length = col.length ∧
      getDoc (addPack (some uid) np col newId) k =
        some { d with inPerson := d.inPerson + np.inPerson,
                      inTransit := d.inTransit + np.inTransit,
                      imageUrl := np.imageUrl }) := by
  constructor
  · intro h
    have h2 : col.find? (fun e => decide (e.2.ownerId = uid) && decide (e.2.name = np.name)) =
        none := by simpa using h
    simp [addPack, h2]
  · intro k d h
    have h2 : col.find? (fun e => decide (e.2.ownerId = uid) && decide (e.2.name = np.name)) =
        some (k, d) := by simpa using h
    have hmem : (k, d) ∈ col := List.mem_of_find?_eq_some h2
    have hget : getDoc col k = some d := getDoc_eq_some_of_mem col k d hnd hmem
    have haddeq : addPack (some uid) np col newId =
        col.map (fun e => if e.1 = k then
          (e.1, { e.2 with inPerson := e.2.inPerson + np.inPerson,
                           inTransit := e.2.inTransit + np.inTransit,
                           imageUrl := np.imageUrl }) else e) := by
      simp [addPack, h2]
    constructor
    · rw [haddeq, List.length_map]
    · rw [haddeq, getDoc_map_if col k k
        (fun d2 => { d2 with inPerson := d2.inPerson + np.inPerson,
                             inTransit := d2.inTransit + np.inTransit,
                             imageUrl := np.imageUrl })]
      simp [hget]

/-- Witness for C9 (amended) exercising both branches at concrete
stores: the same-name case merges in place, the fresh-name case appends
a new record. -/
theorem addPack_upsert_witness :
    ((addPack (some "u") ⟨"X", "new", 3, 0⟩ [("p1", ⟨"X", "old", 2, 1, "u"⟩)] "p9").length =
      ([("p1", (⟨"X", "old", 2, 1, "u"⟩ : PackDoc))] : PacksCol).length ∧
      getDoc (addPack (some "u") ⟨"X", "new", 3, 0⟩ [("p1", ⟨"X", "old", 2, 1, "u"⟩)] "p9")
        "p1" = some ⟨"X", "new", 5, 1, "u"⟩) ∧
    addPack (some "u") ⟨"Y", "new", 3, 0⟩ [("p1", ⟨"X", "old", 2, 1, "u"⟩)] "p9" =
      [("p1", ⟨"X", "old", 2, 1, "u"⟩), ("p9", ⟨"Y", "new", 3, 0, "u"⟩)] :=
  ⟨(addPack_upsert "u" ⟨"X", "new", 3, 0⟩ [("p1", ⟨"X", "old", 2, 1, "u"⟩)] "p9"
      (by decide)).2 "p1" ⟨"X", "old", 2, 1, "u"⟩ (by decide),
   (addPack_upsert "u" ⟨"Y", "new", 3, 0⟩ [("p1", ⟨"X", "old", 2, 1, "u"⟩)] "p9"
      (by decide)).1 (by decide)⟩

theorem foldl_add_weight (w : Pack → ℚ) :
    ∀ (l : List Pack) (a : ℚ), l.foldl (fun s p => s + w p) a = a + (l.map w).sum := by
  intro l
  induction l with
  | nil => intro a; simp
  | cons p t ih => intro a; simp [ih, add_assoc]

theorem totalWeight_eq_sum (w : Pack → ℚ) (l : List Pack) :
    totalWeight w l = (l.map w).sum := by
  rw [totalWeight, foldl_add_weight, zero_add]

theorem pickLoop_mem_pos (w : Pack → ℚ) :
    ∀ (packs : List Pack) (rand : ℚ) (fb : Option Pack), 0 ≤ rand →
      rand < (packs.map w).sum →
      ∃ p, pickLoop w packs rand fb = some p ∧ p ∈ packs ∧ 0 < w p := by
  intro packs
  induction packs with
  | nil =>
    intro rand fb h0 hlt
    simp at hlt
    linarith
  | cons p t ih =>
    intro rand fb h0 hlt
    by_cases hp : rand < w p
    · exact ⟨p, by simp [pickLoop, hp], by simp, lt_of_le_of_lt h0 hp⟩
    · push_neg at hp
      have h0b : 0 ≤ rand - w p := by linarith
      have hltb : rand - w p < (t.map w).sum := by
        simp only [List.map_cons, List.sum_cons] at hlt
        linarith
      obtain ⟨q, hq, hqm, hqw⟩ := ih (rand - w p) fb h0b hltb
      refine ⟨q, ?_, List.mem_cons.mpr (Or.inr hqm), hqw⟩
      simp only [pickLoop, if_neg (not_lt.mpr hp)]
      exact hq

/-- Claim C3 counterexample: a one-pack pool of total weight 0 (the only
pack has weight 0) does not yield `none`; the `totalWeight <= 0` branch
returns a uniformly indexed pack of the pool, here the zero-weight pack
itself — so the function both fails to return `none` on a zero-weight
pool and selects a pack of non-positive weight. Weights are read as the
claim itself reads them (the `inPerson` count standing for the source's
`p.quantity` access). -/
theorem pickWeighted_zero_total_counterexample :
    totalWeight (fun p => (p.inPerson : ℚ)) [⟨"z", "Z", "", 0, 0, "u"⟩] = 0 ∧
    pickWeightedRandomPack (fun p => (p.inPerson : ℚ)) false
      [⟨"z", "Z", "", 0, 0, "u"⟩] 0 0 = some ⟨"z", "Z", "", 0, 0, "u"⟩ := by
  have htw : totalWeight (fun p => (p.inPerson : ℚ)) [⟨"z", "Z", "", 0, 0, "u"⟩] = 0 := by
    simp [totalWeight]
  refine ⟨htw, ?_⟩
  simp [pickWeightedRandomPack, htw]

/-- Claim C3 amended: `pickWeightedRandomPack` returns `none` when
`confirmed` is true or the pool is empty; when the pool's total weight is
non-positive but the pool is non-empty it returns a uniformly indexed
pack of the pool (not `none`, and possibly of non-positive weight); only
when the total weight is positive is the selected pack guaranteed to be a
member of positive weight. -/
theorem pickWeighted_spec (w : Pack → ℚ) (confirmed : Bool) (packs : List Pack)
    (u1 u2 : ℚ) (hu1a : 0 ≤ u1) (hu1b : u1 < 1) (hu2a : 0 ≤ u2) (hu2b : u2 < 1) :
    (confirmed = true → pickWeightedRandomPack w confirmed packs u1 u2 = none) ∧
    (packs = [] → pickWeightedRandomPack w confirmed packs u1 u2 = none) ∧
    (confirmed = false → packs ≠ [] → totalWeight w packs ≤ 0 →
      ∃ p, p ∈ packs ∧ pickWeightedRandomPack w confirmed packs u1 u2 = some p) ∧
    (confirmed = false → 0 < totalWeight w packs →
      ∃ p, p ∈ packs ∧ pickWeightedRandomPack w confirmed packs u1 u2 = some p ∧
        0 < w p) := by
  refine ⟨?_, ?_, ?_, ?_⟩
  · intro hc
    subst hc
    simp [pickWeightedRandomPack]
  · intro hp
    subst hp
    cases confirmed <;> simp [pickWeightedRandomPack]
  · intro hc hne htot
    subst hc
    have hlen0 : packs.length ≠ 0 := fun h => hne (List.length_eq_zero.mp h)
    have hlenpos : 0 < packs.length := Nat.pos_of_ne_zero hlen0
    have hlenq : (0 : ℚ) < (packs.length : ℚ) := by exact_mod_cast hlenpos
    have h1 : u2 * (packs.length : ℚ) < (packs.length : ℚ) := by
      have h1a := mul_lt_mul_of_pos_right hu2b hlenq
      rwa [one_mul] at h1a
    have h2 : (0 : ℚ) ≤ u2 * (packs.length : ℚ) := mul_nonneg hu2a (le_of_lt hlenq)
    have h3 : ⌊u2 * (packs.length : ℚ)⌋ < (packs.length : ℤ) := by
      rw [Int.floor_lt]
      exact_mod_cast h1
    have h4 : 0 ≤ ⌊u2 * (packs.length : ℚ)⌋ := Int.floor_nonneg.mpr h2
    have h5 : Int.toNat ⌊u2 * (packs.length : ℚ)⌋ < packs.length := by omega
    refine ⟨packs.get ⟨Int.toNat ⌊u2 * (packs.length : ℚ)⌋, h5⟩, List.get_mem packs _ h5, ?_⟩
    simp only [pickWeightedRandomPack, Bool.false_eq_true, if_false, hlen0,
      if_pos htot]
    exact List.get?_eq_get h5
  · intro hc htot
    subst hc
    have hne : packs ≠ [] := by
      intro h
      subst h
      rw [show totalWeight w [] = 0 from rfl] at htot
      exact lt_irrefl 0 htot
    have hlen0 : packs.length ≠ 0 := fun h => hne (List.length_eq_zero.mp h)
    have hr0 : 0 ≤ u1 * totalWeight w packs := mul_nonneg hu1a (le_of_lt htot)
    have hrlt : u1 * totalWeight w packs < (packs.map w).sum := by
      rw [← totalWeight_eq_sum]
      calc u1 * totalWeight w packs < 1 * totalWeight w packs :=
            mul_lt_mul_of_pos_right hu1b htot
        _ = totalWeight w packs := one_mul _
    obtain ⟨p, hp, hpm, hpw⟩ := pickLoop_mem_pos w packs (u1 * totalWeight w packs)
      (packs.get? (packs.length - 1)) hr0 hrlt
    refine ⟨p, hpm, ?_, hpw⟩
    simp only [pickWeightedRandomPack, Bool.false_eq_true, if_false, hlen0,
      if_neg (not_le.mpr htot)]
    exact hp

/-- Witness for C3 (amended) at a one-pack pool of weight 3 and random
draws of one half. -/
theorem pickWeighted_spec_witness :
    ∃ p, p ∈ [(⟨"a", "A", "", 3, 0, "u"⟩ : Pack)] ∧
      pickWeightedRandomPack (fun q => (q.inPerson : ℚ)) false
        [⟨"a", "A", "", 3, 0, "u"⟩] (1 / 2) (1 / 2) = some p ∧
      0 < (fun q => (q.inPerson : ℚ)) p :=
  (pickWeighted_spec (fun q => (q.inPerson : ℚ)) false [⟨"a", "A", "", 3, 0, "u"⟩]
      (1 / 2) (1 / 2) (by norm_num) (by norm_num) (by norm_num) (by norm_num)).2.2.2
    rfl (by norm_num [totalWeight])

/-- Claim C4 counterexample: a pack with `inPerson = 5` that already
occurs in `packsSelectedOrder` is excluded from `availablePacks` (the
claim says "already selected" must not filter eligibility), while a pack
with `inPerson = 0` (but `inTransit = 3`) and no matching selection is
included (the claim says eligibility requires `inPerson > 0`). -/
theorem availablePacks_counterexample :
    availablePacks [⟨"a", "A", "", 5, 0, "u"⟩] [⟨"a", "A", "", 5, 0, "u"⟩] = [] ∧
    (⟨"a", "A", "", 5, 0, "u"⟩ : Pack).inPerson = 5 ∧
    availablePacks [⟨"b", "B", "", 0, 3, "u"⟩] [] = [⟨"b", "B", "", 0, 3, "u"⟩] ∧
    (⟨"b", "B", "", 0, 3, "u"⟩ : Pack).inPerson = 0 := by
  refine ⟨rfl, rfl, rfl, rfl⟩

/-- Claim C4 amended: a pack is eligible for the spinner if and only if
it is present in `tempInventory` and its id does not occur in
`packsSelectedOrder`; presence in `tempInventory` is the only quantity
condition (entries with `inPerson = 0` but `inTransit > 0` remain
eligible), and the sampling weight is read from the source's `p.quantity`
field, not recomputed from `inPerson`. -/
theorem availablePacks_mem (p : Pack) (temp order : List Pack) :
    p ∈ availablePacks temp order ↔ p ∈ temp ∧ ∀ q ∈ order, q.id ≠ p.id := by
  simp [availablePacks, List.mem_filter]

theorem set_get?_self {α : Type} (l : List α) (i : Nat) (a : α) (h : l.get? i = some a) :
    l.set i a = l := by
  induction l generalizing i with
  | nil => simp at h
  | cons x t ih =>
    cases i with
    | zero =>
      simp at h
      simp [h]
    | succ n =>
      simp only [List.get?] at h
      simp only [List.set]
      rw [ih n h]

/-- Claim C8 counterexample: a confirmed session with one recorded pick
is not left unchanged by `undoLastPick`; the undo is performed and
`confirmed` is reset to `false`, leaving the Confirmed state. -/
theorem undo_post_confirm_counterexample :
    (undoLastPick ⟨"sid", [⟨"player-1", "P1", [⟨"a", "A", "", 1, 0, "u"⟩]⟩], 3,
        [⟨"a", "A", "", 1, 0, "u"⟩], [], true⟩).confirmed = false ∧
    (⟨"sid", [⟨"player-1", "P1", [⟨"a", "A", "", 1, 0, "u"⟩]⟩], 3,
        [⟨"a", "A", "", 1, 0, "u"⟩], [], true⟩ : Session).confirmed = true ∧
    (undoLastPick ⟨"sid", [⟨"player-1", "P1", [⟨"a", "A", "", 1, 0, "u"⟩]⟩], 3,
        [⟨"a", "A", "", 1, 0, "u"⟩], [], true⟩).packsSelectedOrder = [] := by
  exact ⟨rfl, rfl, rfl⟩

/-- Claim C8 amended: `undoLastPick` guards only on an empty
`packsSelectedOrder` (then it is a no-op for any `confirmed` value);
invoked on a session with a non-empty `packsSelectedOrder` — in
particular a confirmed one — it performs the undo, shortening
`packsSelectedOrder` by one and resetting `confirmed` to `false`, so the
Confirmed state is left by a direct undo call and only the caller-side
`canUndo` UI precondition prevents this. -/
theorem undoLastPick_guard (s : Session) :
    (s.packsSelectedOrder = [] → undoLastPick s = s) ∧
    (s.packsSelectedOrder ≠ [] →
      (undoLastPick s).confirmed = false ∧
      (undoLastPick s).packsSelectedOrder.length = s.packsSelectedOrder.length - 1) := by
  constructor
  · intro h
    simp [undoLastPick, h]
  · intro h
    cases hl : s.packsSelectedOrder.getLast? with
    | none =>
      exact absurd (by simpa using hl) h
    | some a =>
      constructor
      · simp [undoLastPick, hl]
      · simp [undoLastPick, hl, List.length_dropLast]

/-- Witness for C8 (amended): the empty-order no-op and the
confirmed-undo at concrete sessions. -/
theorem undoLastPick_guard_witness :
    (undoLastPick ⟨"s", [⟨"player-1", "P1", []⟩], 3, [], [], true⟩ =
      ⟨"s", [⟨"player-1", "P1", []⟩], 3, [], [], true⟩) ∧
    ((undoLastPick ⟨"sid", [⟨"player-1", "P1", [⟨"a", "A", "", 1, 0, "u"⟩]⟩], 3,
        [⟨"a", "A", "", 1, 0, "u"⟩], [⟨"b", "B", "", 2, 0, "u"⟩], true⟩).confirmed = false ∧
      (undoLastPick ⟨"sid", [⟨"player-1", "P1", [⟨"a", "A", "", 1, 0, "u"⟩]⟩], 3,
        [⟨"a", "A", "", 1, 0, "u"⟩], [⟨"b", "B", "", 2, 0, "u"⟩], true⟩).packsSelectedOrder.length =
        ([⟨"a", "A", "", 1, 0, "u"⟩] : List Pack).length - 1) :=
  ⟨(undoLastPick_guard ⟨"s", [⟨"player-1", "P1", []⟩], 3, [], [], true⟩).1 rfl,
   (undoLastPick_guard ⟨"sid", [⟨"player-1", "P1", [⟨"a", "A", "", 1, 0, "u"⟩]⟩], 3,
      [⟨"a", "A", "", 1, 0, "u"⟩], [⟨"b", "B", "", 2, 0, "u"⟩], true⟩).2 (by simp)⟩

/-- Claim C10 counterexample: picking a pack whose id is absent from
`tempInventory` does not leave `tempInventory`'s entries unchanged in
every state: the trailing `filter` still removes entries with
`inPerson <= 0` and `inTransit <= 0`, so a depleted `(0, 0)` entry
disappears even though nothing was decremented. -/
theorem selectPack_filter_counterexample :
    (selectPackForNextPlayer
        ⟨"sid", [⟨"player-1", "P1", []⟩], 3, [], [⟨"z", "Z", "", 0, 0, "u"⟩], false⟩
        ⟨"b", "B", "", 2, 0, "u"⟩).tempInventory = [] ∧
    (⟨"sid", [⟨"player-1", "P1", []⟩], 3, [], [⟨"z", "Z", "", 0, 0, "u"⟩], false⟩ :
      Session).tempInventory = [⟨"z", "Z", "", 0, 0, "u"⟩] := by
  exact ⟨rfl, rfl⟩

/-- Claim C10 amended: `selectPackForNextPlayer` performs no eligibility
check — for a pack whose id does not occur in `tempInventory` it still
appends the pack to `packsSelectedOrder` and to the round-robin player's
`selectedPacks`, and decrements or adds no inventory entry; but
`tempInventory` is additionally re-filtered, dropping any entry with
`inPerson <= 0` and `inTransit <= 0`, so it is literally unchanged only
when every entry has a positive quantity. -/
theorem selectPack_no_eligibility_check (s : Session) (pack : Pack)
    (hp : 0 < s.players.length)
    (hid : ∀ q ∈ s.tempInventory, q.id ≠ pack.id) :
    (selectPackForNextPlayer s pack).packsSelectedOrder =
      s.packsSelectedOrder ++ [pack] ∧
    (∃ pl, s.players.get? (s.packsSelectedOrder.length % s.players.length) = some pl ∧
      (selectPackForNextPlayer s pack).players =
        s.players.set (s.packsSelectedOrder.length % s.players.length)
          { pl with selectedPacks := pl.selectedPacks ++ [pack] }) ∧
    (selectPackForNextPlayer s pack).tempInventory =
      s.tempInventory.filter (fun q => decide (0 < q.inPerson ∨ 0 < q.inTransit)) ∧
    ((∀ q ∈ s.tempInventory, 0 < q.inPerson ∨ 0 < q.inTransit) →
      (selectPackForNextPlayer s pack).tempInventory = s.tempInventory) := by
  have hidx : s.packsSelectedOrder.length % s.players.length < s.players.length :=
    Nat.mod_lt _ hp
  have hpl : s.players.get? (s.packsSelectedOrder.length % s.players.length) =
      some (s.players.get ⟨_, hidx⟩) := List.get?_eq_get hidx
  have hmapid : s.tempInventory.map (fun p =>
      if p.id = pack.id then { p with inPerson := p.inPerson - 1 } else p) =
      s.tempInventory := by
    have h1 : s.tempInventory.map (fun p =>
        if p.id = pack.id then { p with inPerson := p.inPerson - 1 } else p) =
        s.tempInventory.map (fun p => p) :=
      List.map_congr_left (fun q hq => by simp [hid q hq])
    rw [h1, List.map_id']
  refine ⟨rfl, ⟨s.players.get ⟨_, hidx⟩, hpl, ?_⟩, ?_, ?_⟩
  · simp only [selectPackForNextPlayer, hpl]
  · simp only [selectPackForNextPlayer, hmapid]
  · intro hkeep
    simp only [selectPackForNextPlayer, hmapid]
    exact List.filter_eq_self.mpr (fun q hq => by simpa using hkeep q hq)

/-- Witness for C10 (amended) at a concrete session holding one fully
positive entry and picking a foreign pack. -/
theorem selectPack_no_eligibility_check_witness :
    (selectPackForNextPlayer
        ⟨"sid", [⟨"player-1", "P1", []⟩], 3, [], [⟨"a", "A", "", 2, 0, "u"⟩], false⟩
        ⟨"b", "B", "", 7, 0, "u"⟩).packsSelectedOrder = [] ++ [⟨"b", "B", "", 7, 0, "u"⟩] ∧
    (∃ pl, ([⟨"player-1", "P1", []⟩] : List Player).get?
        (([] : List Pack).length % ([⟨"player-1", "P1", []⟩] : List Player).length) = some pl ∧
      (selectPackForNextPlayer
        ⟨"sid", [⟨"player-1", "P1", []⟩], 3, [], [⟨"a", "A", "", 2, 0, "u"⟩], false⟩
        ⟨"b", "B", "", 7, 0, "u"⟩).players =
        ([⟨"player-1", "P1", []⟩] : List Player).set
          (([] : List Pack).length % ([⟨"player-1", "P1", []⟩] : List Player).length)
          { pl with selectedPacks := pl.selectedPacks ++ [⟨"b", "B", "", 7, 0, "u"⟩] }) ∧
    (selectPackForNextPlayer
        ⟨"sid", [⟨"player-1", "P1", []⟩], 3, [], [⟨"a", "A", "", 2, 0, "u"⟩], false⟩
        ⟨"b", "B", "", 7, 0, "u"⟩).tempInventory =
      ([⟨"a", "A", "", 2, 0, "u"⟩] : List Pack).filter
        (fun q => decide (0 < q.inPerson ∨ 0 < q.inTransit)) ∧
    ((∀ q ∈ ([⟨"a", "A", "", 2, 0, "u"⟩] : List Pack), 0 < q.inPerson ∨ 0 < q.inTransit) →
      (selectPackForNextPlayer
        ⟨"sid", [⟨"player-1", "P1", []⟩], 3, [], [⟨"a", "A", "", 2, 0, "u"⟩], false⟩
        ⟨"b", "B", "", 7, 0, "u"⟩).tempInventory = [⟨"a", "A", "", 2, 0, "u"⟩]) :=
  selectPack_no_eligibility_check
    ⟨"sid", [⟨"player-1", "P1", []⟩], 3, [], [⟨"a", "A", "", 2, 0, "u"⟩], false⟩
    ⟨"b", "B", "", 7, 0, "u"⟩ (by decide) (by decide)

/-- Claim C6 counterexample: picking the first of two inventory entries
when the picked entry has `inPerson = 1` and `inTransit = 0` removes it
from `tempInventory` (the filter drops it), and the following undo
re-appends it at the end, so `tempInventory` is not byte-for-byte equal
to its pre-pick value — the entry moved from the front to the back. -/
theorem pick_undo_temp_counterexample :
    (undoLastPick (selectPackForNextPlayer
        ⟨"sid", [⟨"player-1", "P1", []⟩], 3, [],
          [⟨"a", "A", "", 1, 0, "u"⟩, ⟨"b", "B", "", 2, 0, "u"⟩], false⟩
        ⟨"a", "A", "", 1, 0, "u"⟩)).tempInventory =
      [⟨"b", "B", "", 2, 0, "u"⟩, ⟨"a", "A", "", 1, 0, "u"⟩] ∧
    (undoLastPick (selectPackForNextPlayer
        ⟨"sid", [⟨"player-1", "P1", []⟩], 3, [],
          [⟨"a", "A", "", 1, 0, "u"⟩, ⟨"b", "B", "", 2, 0, "u"⟩], false⟩
        ⟨"a", "A", "", 1, 0, "u"⟩)).tempInventory ≠
      [⟨"a", "A", "", 1, 0, "u"⟩, ⟨"b", "B", "", 2, 0, "u"⟩] := by
  exact ⟨rfl, by decide⟩

/-- Claim C6 amended: for a session with at least one player whose
`tempInventory` has pairwise-distinct ids and only positive-quantity
entries, a pick of an inventory entry followed by one `undoLastPick`
restores `packsSelectedOrder` and every player's `selectedPacks`
byte-for-byte, and restores `tempInventory` up to reordering. When the
picked entry survives the pick (`inPerson > 1` or `inTransit > 0`),
`tempInventory` is restored byte-for-byte; when it is depleted and
removed, the undone entry is re-appended at the end of the post-pick
`tempInventory`, which does not always reproduce the original order (see
the counterexample; it does coincide when the entry was last). -/
theorem pick_undo_roundtrip (s : Session) (pack : Pack)
    (hp : 0 < s.players.length)
    (hmem : pack ∈ s.tempInventory)
    (hnd : (s.tempInventory.map Pack.id).Nodup)
    (hkeep : ∀ q ∈ s.tempInventory, 0 < q.inPerson ∨ 0 < q.inTransit) :
    (undoLastPick (selectPackForNextPlayer s pack)).packsSelectedOrder =
      s.packsSelectedOrder ∧
    (undoLastPick (selectPackForNextPlayer s pack)).players = s.players ∧
    List.Perm (undoLastPick (selectPackForNextPlayer s pack)).tempInventory
      s.tempInventory ∧
    ((1 < pack.inPerson ∨ 0 < pack.inTransit) →
      (undoLastPick (selectPackForNextPlayer s pack)).tempInventory =
        s.tempInventory) ∧
    (¬ (1 < pack.inPerson ∨ 0 < pack.inTransit) →
      (undoLastPick (selectPackForNextPlayer s pack)).tempInventory =
        (selectPackForNextPlayer s pack).tempInventory ++ [pack]) := by
  have hidx : s.packsSelectedOrder.length % s.players.length < s.players.length :=
    Nat.mod_lt _ hp
  have hpl : s.players.get? (s.packsSelectedOrder.length % s.players.length) =
      some (s.players.get ⟨_, hidx⟩) := List.get?_eq_get hidx
  have hordsel : (selectPackForNextPlayer s pack).packsSelectedOrder =
      s.packsSelectedOrder ++ [pack] := rfl
  have hlast : (selectPackForNextPlayer s pack).packsSelectedOrder.getLast? = some pack := by
    rw [hordsel]
    exact List.getLast?_concat _
  have horder : (undoLastPick (selectPackForNextPlayer s pack)).packsSelectedOrder =
      s.packsSelectedOrder := by
    simp only [undoLastPick, hlast]
    rw [hordsel]
    exact List.dropLast_concat
  have hplayers1 : (selectPackForNextPlayer s pack).players =
      s.players.set (s.packsSelectedOrder.length % s.players.length)
        { s.players.get ⟨_, hidx⟩ with
          selectedPacks := (s.players.get ⟨_, hidx⟩).selectedPacks ++ [pack] } := by
    simp only [selectPackForNextPlayer, hpl]
  have hplayers : (undoLastPick (selectPackForNextPlayer s pack)).players = s.players := by
    simp only [undoLastPick, hlast]
    simp only [hplayers1, hordsel]
    simp only [List.length_append, List.length_set, List.length_cons, List.length_nil,
      Nat.add_sub_cancel, Nat.zero_add]
    rw [List.get?_set_eq_of_lt _ hidx]
    simp only [List.set_set, List.dropLast_concat]
    exact set_get?_self s.players _ _ hpl
  -- inventory decomposition around the picked entry
  obtain ⟨l₁, l₂, hsplit⟩ := List.append_of_mem hmem
  have hndm : pack.id ∉ l₁.map Pack.id ++ l₂.map Pack.id := by
    rw [hsplit, List.map_append, List.map_cons] at hnd
    exact (List.nodup_cons.mp (List.nodup_middle.mp hnd)).1
  have hq1 : ∀ q ∈ l₁, q.id ≠ pack.id := fun q hq h =>
    hndm (List.mem_append.mpr (Or.inl (List.mem_map.mpr ⟨q, hq, h⟩)))
  have hq2 : ∀ q ∈ l₂, q.id ≠ pack.id := fun q hq h =>
    hndm (List.mem_append.mpr (Or.inr (List.mem_map.mpr ⟨q, hq, h⟩)))
  have hk1 : ∀ q ∈ l₁, 0 < q.inPerson ∨ 0 < q.inTransit := fun q hq =>
    hkeep q (by rw [hsplit]; exact List.mem_append.mpr (Or.inl hq))
  have hk2 : ∀ q ∈ l₂, 0 < q.inPerson ∨ 0 < q.inTransit := fun q hq =>
    hkeep q (by
      rw [hsplit]
      exact List.mem_append.mpr (Or.inr (List.mem_cons.mpr (Or.inr hq))))
  have hkp : 0 < pack.inPerson ∨ 0 < pack.inTransit := hkeep pack hmem
  have hmapdec : s.tempInventory.map (fun p =>
      if p.id = pack.id then { p with inPerson := p.inPerson - 1 } else p) =
      l₁ ++ { pack with inPerson := pack.inPerson - 1 } :: l₂ := by
    rw [hsplit, List.map_append, List.map_cons]
    congr 1
    · exact (List.map_congr_left (fun q hq => by simp [hq1 q hq])).trans (List.map_id' _)
    · congr 1
      · simp
      · exact (List.map_congr_left (fun q hq => by simp [hq2 q hq])).trans (List.map_id' _)
  have hfl1 : l₁.filter (fun p => decide (0 < p.inPerson ∨ 0 < p.inTransit)) = l₁ :=
    List.filter_eq_self.mpr (fun q hq => by simpa using hk1 q hq)
  have hfl2 : l₂.filter (fun p => decide (0 < p.inPerson ∨ 0 < p.inTransit)) = l₂ :=
    List.filter_eq_self.mpr (fun q hq => by simpa using hk2 q hq)
  by_cases hsurv : 0 < pack.inPerson - 1 ∨ 0 < pack.inTransit
  · -- the decremented entry survives the filter: exact restoration
    have htemp1 : (selectPackForNextPlayer s pack).tempInventory =
        l₁ ++ { pack with inPerson := pack.inPerson - 1 } :: l₂ := by
      simp only [selectPackForNextPlayer]
      rw [hmapdec, List.filter_append, List.filter_cons]
      simp only [hfl1, hfl2]
      rw [if_pos (by simpa using hsurv)]
    have hfind : (selectPackForNextPlayer s pack).tempInventory.find?
        (fun p => decide (p.id = pack.id)) =
        some { pack with inPerson := pack.inPerson - 1 } := by
      rw [htemp1, List.find?_append]
      have h1 : l₁.find? (fun p => decide (p.id = pack.id)) = none :=
        List.find?_eq_none.mpr (fun x hx => by simpa using hq1 x hx)
      rw [h1]
      simp [List.find?_cons]
    have htemp2 : (undoLastPick (selectPackForNextPlayer s pack)).tempInventory =
        s.tempInventory := by
      simp only [undoLastPick, hlast, hfind]
      rw [htemp1, List.map_append, List.map_cons]
      have hinc : ({ pack with inPerson := pack.inPerson - 1 } : Pack).id = pack.id := rfl
      rw [if_pos hinc]
      have hl1 : l₁.map (fun p =>
          if p.id = pack.id then { p with inPerson := p.inPerson + 1 } else p) = l₁ :=
        (List.map_congr_left (fun q hq => by simp [hq1 q hq])).trans (List.map_id' _)
      have hl2 : l₂.map (fun p =>
          if p.id = pack.id then { p with inPerson := p.inPerson + 1 } else p) = l₂ :=
        (List.map_congr_left (fun q hq => by simp [hq2 q hq])).trans (List.map_id' _)
      rw [hl1, hl2]
      have hpackeq : ({ pack with inPerson := pack.inPerson - 1 + 1 } : Pack) = pack := by
        have h1 : pack.inPerson - 1 + 1 = pack.inPerson := by omega
        rw [h1]
      rw [show ({ pack with inPerson :=
          ({ pack with inPerson := pack.inPerson - 1 } : Pack).inPerson + 1 } : Pack) =
          ({ pack with inPerson := pack.inPerson - 1 + 1 } : Pack) from rfl, hpackeq]
      exact hsplit.symm
    refine ⟨horder, hplayers, by rw [htemp2], fun _ => htemp2, fun h => ?_⟩
    exfalso
    rcases hsurv with h1 | h1
    · exact h (Or.inl (by omega))
    · exact h (Or.inr h1)
  · -- the picked entry is depleted and removed: restoration up to moving it
    push_neg at hsurv
    have hip1 : pack.inPerson = 1 := by
      rcases hkp with h | h
      · omega
      · omega
    have htemp1 : (selectPackForNextPlayer s pack).tempInventory = l₁ ++ l₂ := by
      simp only [selectPackForNextPlayer]
      rw [hmapdec, List.filter_append, List.filter_cons]
      simp only [hfl1, hfl2]
      rw [if_neg (by simp; omega)]
    have hfind : (selectPackForNextPlayer s pack).tempInventory.find?
        (fun p => decide (p.id = pack.id)) = none := by
      rw [htemp1, List.find?_append]
      have h1 : l₁.find? (fun p => decide (p.id = pack.id)) = none :=
        List.find?_eq_none.mpr (fun x hx => by simpa using hq1 x hx)
      have h2 : l₂.find? (fun p => decide (p.id = pack.id)) = none :=
        List.find?_eq_none.mpr (fun x hx => by simpa using hq2 x hx)
      rw [h1, h2]
      rfl
    have htemp2 : (undoLastPick (selectPackForNextPlayer s pack)).tempInventory =
        (l₁ ++ l₂) ++ [pack] := by
      simp only [undoLastPick, hlast, hfind]
      rw [htemp1]
      have hpackeq : ({ pack with inPerson := 1 } : Pack) = pack := by
        rw [← hip1]
      rw [hpackeq]
    have hperm : List.Perm ((l₁ ++ l₂) ++ [pack]) s.tempInventory := by
      rw [hsplit]
      exact (List.perm_append_singleton pack (l₁ ++ l₂)).trans List.perm_middle.symm
    refine ⟨horder, hplayers, by rw [htemp2]; exact hperm, fun h => ?_, fun _ => ?_⟩
    · exfalso
      rcases h with h | h
      · omega
      · omega
    · rw [htemp2, htemp1]

/-- Witness for C6 (amended) at a concrete one-player session picking an
entry with `inPerson = 2`. -/
theorem pick_undo_roundtrip_witness :
    (undoLastPick (selectPackForNextPlayer
        ⟨"sid", [⟨"player-1", "P1", []⟩], 3, [], [⟨"a", "A", "", 2, 0, "u"⟩], false⟩
        ⟨"a", "A", "", 2, 0, "u"⟩)).packsSelectedOrder = [] ∧
    (undoLastPick (selectPackForNextPlayer
        ⟨"sid", [⟨"player-1", "P1", []⟩], 3, [], [⟨"a", "A", "", 2, 0, "u"⟩], false⟩
        ⟨"a", "A", "", 2, 0, "u"⟩)).players = [⟨"player-1", "P1", []⟩] ∧
    List.Perm (undoLastPick (selectPackForNextPlayer
        ⟨"sid", [⟨"player-1", "P1", []⟩], 3, [], [⟨"a", "A", "", 2, 0, "u"⟩], false⟩
        ⟨"a", "A", "", 2, 0, "u"⟩)).tempInventory [⟨"a", "A", "", 2, 0, "u"⟩] ∧
    ((1 < (⟨"a", "A", "", 2, 0, "u"⟩ : Pack).inPerson ∨
        0 < (⟨"a", "A", "", 2, 0, "u"⟩ : Pack).inTransit) →
      (undoLastPick (selectPackForNextPlayer
        ⟨"sid", [⟨"player-1", "P1", []⟩], 3, [], [⟨"a", "A", "", 2, 0, "u"⟩], false⟩
        ⟨"a", "A", "", 2, 0, "u"⟩)).tempInventory = [⟨"a", "A", "", 2, 0, "u"⟩]) ∧
    (¬ (1 < (⟨"a", "A", "", 2, 0, "u"⟩ : Pack).inPerson ∨
        0 < (⟨"a", "A", "", 2, 0, "u"⟩ : Pack).inTransit) →
      (undoLastPick (selectPackForNextPlayer
        ⟨"sid", [⟨"player-1", "P1", []⟩], 3, [], [⟨"a", "A", "", 2, 0, "u"⟩], false⟩
        ⟨"a", "A", "", 2, 0, "u"⟩)).tempInventory =
        (selectPackForNextPlayer
          ⟨"sid", [⟨"player-1", "P1", []⟩], 3, [], [⟨"a", "A", "", 2, 0, "u"⟩], false⟩
          ⟨"a", "A", "", 2, 0, "u"⟩).tempInventory ++ [⟨"a", "A", "", 2, 0, "u"⟩]) :=
  pick_undo_roundtrip
    ⟨"sid", [⟨"player-1", "P1", []⟩], 3, [], [⟨"a", "A", "", 2, 0, "u"⟩], false⟩
    ⟨"a", "A", "", 2, 0, "u"⟩ (by decide) (by decide) (by decide) (by decide)

theorem pickedAtAux_append (n j : Nat) :
    ∀ (l : List Pack) (a : Pack) (i : Nat),
      pickedAtAux n j i (l ++ [a]) =
        pickedAtAux n j i l ++ (if (i + l.length) % n = j then [a] else []) := by
  intro l
  induction l with
  | nil => intro a i; simp [pickedAtAux]
  | cons p t ih =>
    intro a i
    rw [List.cons_append]
    rw [show pickedAtAux n j i (p :: (t ++ [a])) =
        (if i % n = j then [p] else []) ++ pickedAtAux n j (i + 1) (t ++ [a]) from rfl]
    rw [ih a (i + 1)]
    rw [show pickedAtAux n j i (p :: t) =
        (if i % n = j then [p] else []) ++ pickedAtAux n j (i + 1) t from rfl]
    rw [List.append_assoc, List.length_cons]
    have harith : i + 1 + t.length = i + (t.length + 1) := by omega
    rw [harith]

theorem pickedAt_append (l : List Pack) (a : Pack) (n j : Nat) :
    pickedAt (l ++ [a]) n j = pickedAt l n j ++ (if l.length % n = j then [a] else []) := by
  unfold pickedAt
  rw [pickedAtAux_append]
  rw [Nat.zero_add]

/-- Claim C7: in every session state reachable by picks and undos from an
initialized session with at least one player, the player count stays
positive and each player's `selectedPacks` equals, in order, the
subsequence of `packsSelectedOrder` at positions congruent to that
player's index modulo the player count — so the pick at position `i` went
to player `i % N`, `selectPackForNextPlayer` and `undoLastPick` agree on
the positional formula, and replaying `packsSelectedOrder` reconstructs
every per-player assignment. -/
theorem roundRobin_assignment (s : Session) (hs : Reach s) :
    0 < s.players.length ∧
    ∀ jv (hjv : jv < s.players.length),
      (s.players.get ⟨jv, hjv⟩).selectedPacks =
        pickedAt s.packsSelectedOrder s.players.length jv := by
  induction hs with
  | init inventory numPlayers playerNames numPacks sid h =>
    refine ⟨by simpa [initializeSession] using h, ?_⟩
    have hall : ∀ p ∈ (initializeSession inventory numPlayers playerNames numPacks
        sid).players, p.selectedPacks = ([] : List Pack) := by
      intro p hp
      obtain ⟨i, _, hf⟩ := List.mem_map.mp hp
      rw [← hf]
    intro jv hjv
    rw [hall _ (List.get_mem _ _ _)]
    rfl
  | pick s pack hs ih =>
    obtain ⟨hp, hinv⟩ := ih
    have hidx : s.packsSelectedOrder.length % s.players.length < s.players.length :=
      Nat.mod_lt _ hp
    have hpl : s.players.get? (s.packsSelectedOrder.length % s.players.length) =
        some (s.players.get ⟨_, hidx⟩) := List.get?_eq_get hidx
    have hplayers1 : (selectPackForNextPlayer s pack).players =
        s.players.set (s.packsSelectedOrder.length % s.players.length)
          { s.players.get ⟨_, hidx⟩ with
            selectedPacks := (s.players.get ⟨_, hidx⟩).selectedPacks ++ [pack] } := by
      simp only [selectPackForNextPlayer, hpl]
    have hlen : (selectPackForNextPlayer s pack).players.length = s.players.length := by
      rw [hplayers1, List.length_set]
    have hordsel : (selectPackForNextPlayer s pack).packsSelectedOrder =
        s.packsSelectedOrder ++ [pack] := rfl
    refine ⟨by rw [hlen]; exact hp, ?_⟩
    intro jv hjv
    have hj : jv < s.players.length := hlen ▸ hjv
    have hgets : (selectPackForNextPlayer s pack).players.get? jv =
        some ((selectPackForNextPlayer s pack).players.get ⟨jv, hjv⟩) :=
      List.get?_eq_get hjv
    have hrhs : pickedAt (selectPackForNextPlayer s pack).packsSelectedOrder
        (selectPackForNextPlayer s pack).players.length jv =
        pickedAt s.packsSelectedOrder s.players.length jv ++
          (if s.packsSelectedOrder.length % s.players.length = jv then [pack]
            else []) := by
      rw [hordsel, hlen, pickedAt_append]
    rw [hrhs]
    by_cases hji : jv = s.packsSelectedOrder.length % s.players.length
    · have h2 : (selectPackForNextPlayer s pack).players.get? jv =
          some { s.players.get ⟨_, hidx⟩ with
            selectedPacks := (s.players.get ⟨_, hidx⟩).selectedPacks ++ [pack] } := by
        rw [hplayers1, hji]
        exact List.get?_set_eq_of_lt _ hidx
      have h3 := Option.some.inj (hgets.symm.trans h2)
      rw [h3]
      rw [show ({ s.players.get ⟨_, hidx⟩ with
          selectedPacks := (s.players.get ⟨_, hidx⟩).selectedPacks ++ [pack] } :
            Player).selectedPacks =
          (s.players.get ⟨_, hidx⟩).selectedPacks ++ [pack] from rfl]
      rw [hinv _ hidx]
      rw [if_pos hji.symm, hji]
    · have h2 : (selectPackForNextPlayer s pack).players.get? jv =
          s.players.get? jv := by
        rw [hplayers1]
        exact List.get?_set_ne _ _ (fun h => hji h.symm)
      have h4 : s.players.get? jv = some (s.players.get ⟨jv, hj⟩) :=
        List.get?_eq_get hj
      have h3 := Option.some.inj ((hgets.symm.trans h2).trans h4)
      rw [h3]
      rw [hinv jv hj]
      rw [if_neg (fun h => hji h.symm)]
      rw [List.append_nil]
  | undo s hs ih =>
    obtain ⟨hp, hinv⟩ := ih
    cases hl : s.packsSelectedOrder.getLast? with
    | none =>
      have hundo : undoLastPick s = s := by simp [undoLastPick, hl]
      rw [hundo]
      exact ⟨hp, hinv⟩
    | some a =>
      rcases List.eq_nil_or_concat s.packsSelectedOrder with h0 | ⟨L, b, hLb⟩
      · rw [h0] at hl
        cases hl
      · rw [List.concat_eq_append] at hLb
        have hab : a = b := by
          rw [hLb, List.getLast?_concat] at hl
          exact (Option.some.inj hl).symm
        subst hab
        have hlenL : s.packsSelectedOrder.length - 1 = L.length := by
          rw [hLb]
          simp
        have hidx : (s.packsSelectedOrder.length - 1) % s.players.length <
            s.players.length := Nat.mod_lt _ hp
        have hpl : s.players.get? ((s.packsSelectedOrder.length - 1) % s.players.length) =
            some (s.players.get ⟨_, hidx⟩) := List.get?_eq_get hidx
        have hup : (undoLastPick s).players =
            s.players.set ((s.packsSelectedOrder.length - 1) % s.players.length)
              { s.players.get ⟨_, hidx⟩ with
                selectedPacks := (s.players.get ⟨_, hidx⟩).selectedPacks.dropLast } := by
          simp only [undoLastPick, hl, hpl]
        have huo : (undoLastPick s).packsSelectedOrder = L := by
          simp only [undoLastPick, hl]
          rw [hLb]
          exact List.dropLast_concat
        have hlen : (undoLastPick s).players.length = s.players.length := by
          rw [hup, List.length_set]
        refine ⟨by rw [hlen]; exact hp, ?_⟩
        intro jv hjv
        have hj : jv < s.players.length := hlen ▸ hjv
        have hgets : (undoLastPick s).players.get? jv =
            some ((undoLastPick s).players.get ⟨jv, hjv⟩) :=
          List.get?_eq_get hjv
        have hpick : ∀ k, pickedAt s.packsSelectedOrder s.players.length k =
            pickedAt L s.players.length k ++
              (if L.length % s.players.length = k then [a] else []) := by
          intro k
          rw [hLb, pickedAt_append]
        have hrhs : pickedAt (undoLastPick s).packsSelectedOrder
            (undoLastPick s).players.length jv =
            pickedAt L s.players.length jv := by
          rw [huo, hlen]
        rw [hrhs]
        by_cases hji : jv = (s.packsSelectedOrder.length - 1) % s.players.length
        · have h2 : (undoLastPick s).players.get? jv =
              some { s.players.get ⟨_, hidx⟩ with
                selectedPacks := (s.players.get ⟨_, hidx⟩).selectedPacks.dropLast } := by
            rw [hup, hji]
            exact List.get?_set_eq_of_lt _ hidx
          have h3 := Option.some.inj (hgets.symm.trans h2)
          rw [h3]
          rw [show ({ s.players.get ⟨_, hidx⟩ with
              selectedPacks := (s.players.get ⟨_, hidx⟩).selectedPacks.dropLast } :
                Player).selectedPacks =
              (s.players.get ⟨_, hidx⟩).selectedPacks.dropLast from rfl]
          rw [hinv _ hidx, hpick _]
          rw [if_pos (by rw [hlenL])]
          rw [List.dropLast_concat, hji]
        · have h2 : (undoLastPick s).players.get? jv = s.players.get? jv := by
            rw [hup]
            exact List.get?_set_ne _ _ (fun h => hji h.symm)
          have h4 : s.players.get? jv = some (s.players.get ⟨jv, hj⟩) :=
            List.get?_eq_get hj
          have h3 := Option.some.inj ((hgets.symm.trans h2).trans h4)
          rw [h3]
          rw [hinv jv hj, hpick _]
          rw [if_neg (fun h => hji (by rw [hlenL]; exact h.symm))]
          rw [List.append_nil]

/-- Witness for C7 at a concrete reachable state: two players, two picks
and one undo from a fresh session. -/
theorem roundRobin_assignment_witness :
    0 < (undoLastPick (selectPackForNextPlayer (selectPackForNextPlayer
        (initializeSession [⟨"a", "A", "", 2, 0, "u"⟩] 2 ["Ann", "Bo"] none "sid")
        ⟨"a", "A", "", 2, 0, "u"⟩) ⟨"a", "A", "", 2, 0, "u"⟩)).players.length ∧
    ∀ jv (hjv : jv < (undoLastPick (selectPackForNextPlayer (selectPackForNextPlayer
        (initializeSession [⟨"a", "A", "", 2, 0, "u"⟩] 2 ["Ann", "Bo"] none "sid")
        ⟨"a", "A", "", 2, 0, "u"⟩) ⟨"a", "A", "", 2, 0, "u"⟩)).players.length),
      ((undoLastPick (selectPackForNextPlayer (selectPackForNextPlayer
          (initializeSession [⟨"a", "A", "", 2, 0, "u"⟩] 2 ["Ann", "Bo"] none "sid")
          ⟨"a", "A", "", 2, 0, "u"⟩) ⟨"a", "A", "", 2, 0, "u"⟩)).players.get
            ⟨jv, hjv⟩).selectedPacks =
        pickedAt (undoLastPick (selectPackForNextPlayer (selectPackForNextPlayer
          (initializeSession [⟨"a", "A", "", 2, 0, "u"⟩] 2 ["Ann", "Bo"] none "sid")
          ⟨"a", "A", "", 2, 0, "u"⟩) ⟨"a", "A", "", 2, 0, "u"⟩)).packsSelectedOrder
          (undoLastPick (selectPackForNextPlayer (selectPackForNextPlayer
            (initializeSession [⟨"a", "A", "", 2, 0, "u"⟩] 2 ["Ann", "Bo"] none "sid")
            ⟨"a", "A", "", 2, 0, "u"⟩) ⟨"a", "A", "", 2, 0, "u"⟩)).players.length jv :=
  roundRobin_assignment _
    (Reach.undo _ (Reach.pick _ _ (Reach.pick _ _
      (Reach.init [⟨"a", "A", "", 2, 0, "u"⟩] 2 ["Ann", "Bo"] none "sid" (by decide)))))

end ChaosDraft
